import Mathlib

/-!
Shallow embedding of the AMM market-making repository (trading/trades.py,
trading/market_maker.py, trading/exchange.py, utils/pnl.py, utils/quotes.py).
Python floats are modelled as rationals (reals for the tanh-based quote
function), pandas timestamps as natural numbers, and a pandas price
DataFrame as a list of dates, a list of column tickers, and a total price
function consulted only at (date, ticker) pairs inside those lists.
Python exceptions are modelled by Option-valued error results; a method
that mutates before raising returns the partially mutated state together
with the error.
-/

namespace AMM

/-- Record mirroring trades.QuotedTrade. -/
structure QuotedTrade where
  ticker : String
  trade_volume : ℚ
  ref_price : ℚ
  bid_price : ℚ
  offer_price : ℚ
  date : ℕ
deriving DecidableEq

/-- Record mirroring trades.CompletedTrade. -/
structure CompletedTrade where
  ticker : String
  trade_volume : ℚ
  trade_price : ℚ
  mm_action : String
  ref_price : ℚ
  bid_price : ℚ
  offer_price : ℚ
  date : ℕ
deriving DecidableEq

/-- Record mirroring market_maker.ETFPosition (hedge execution log entry). -/
structure ETFPosition where
  ticker : String
  trade_volume : ℚ
  trade_price : ℚ
  action : String
  date : ℕ
deriving DecidableEq

/-- Record mirroring the ExecutedTrade dataclass (execution report). -/
structure ExecutedTrade where
  ticker : String
  trade_volume : ℚ
  trade_price : ℚ
  action : String
  date : ℕ
deriving DecidableEq

/-- Record mirroring exchange.ExchangeTrade (hedge order sent to the venue). -/
structure ExchangeTrade where
  ticker : String
  trade_volume : ℚ
  ref_price : ℚ
  action : String
  date : ℕ
deriving DecidableEq

/-- State of market_maker.MarketMaker. The current_positions dict of
Position records is modelled as a total function returning the signed
position volume, 0 for tickers never touched (the dict is only read
through .get with a zero default). -/
structure MarketMaker where
  quoted_trades : List QuotedTrade
  completed_trades : List CompletedTrade
  current_positions : String → ℚ
  ETF_positions : List ETFPosition

/-- Fresh MarketMaker as built by MarketMaker() with no initial trades. -/
def mmInit : MarketMaker :=
  { quoted_trades := []
    completed_trades := []
    current_positions := fun _ => 0
    ETF_positions := [] }

/-- MarketMaker.add_quoted_trade: appends to the quote log only. -/
def MarketMaker.add_quoted_trade (mm : MarketMaker) (trade : QuotedTrade) :
    MarketMaker :=
  { mm with quoted_trades := mm.quoted_trades ++ [trade] }

/-- MarketMaker.add_trade: appends to completed_trades first, then updates
the position by the signed volume, raising ValueError on an unknown
mm_action. The returned pair is (state after the call, optional error);
on error the log append has already happened but positions are untouched. -/
def MarketMaker.add_trade (mm : MarketMaker) (trade : CompletedTrade) :
    MarketMaker × Option String :=
  let mm1 := { mm with completed_trades := mm.completed_trades ++ [trade] }
  if trade.mm_action = "buy" then
    ({ mm1 with current_positions := fun t =>
        if t = trade.ticker then mm1.current_positions t + trade.trade_volume
        else mm1.current_positions t }, none)
  else if trade.mm_action = "sell" then
    ({ mm1 with current_positions := fun t =>
        if t = trade.ticker then mm1.current_positions t - trade.trade_volume
        else mm1.current_positions t }, none)
  else
    (mm1, some ("Unknown mm_action: " ++ trade.mm_action))

/-- MarketMaker.update_ETF_position: updates the position by the signed
volume, then logs an ETFPosition; raises ValueError on an unknown action
before any mutation happens. -/
def MarketMaker.update_ETF_position (mm : MarketMaker)
    (executed_trade : ExecutedTrade) : MarketMaker × Option String :=
  if executed_trade.action = "buy" then
    ({ mm with
        current_positions := fun t =>
          if t = executed_trade.ticker then
            mm.current_positions t + executed_trade.trade_volume
          else mm.current_positions t
        ETF_positions := mm.ETF_positions ++
          [{ ticker := executed_trade.ticker
             trade_volume := executed_trade.trade_volume
             trade_price := executed_trade.trade_price
             action := executed_trade.action
             date := executed_trade.date }] }, none)
  else if executed_trade.action = "sell" then
    ({ mm with
        current_positions := fun t =>
          if t = executed_trade.ticker then
            mm.current_positions t - executed_trade.trade_volume
          else mm.current_positions t
        ETF_positions := mm.ETF_positions ++
          [{ ticker := executed_trade.ticker
             trade_volume := executed_trade.trade_volume
             trade_price := executed_trade.trade_price
             action := executed_trade.action
             date := executed_trade.date }] }, none)
  else
    (mm, some ("Unknown action " ++ executed_trade.action))

/-- Ingestion event: either a client fill routed to add_trade or a hedge
execution routed to update_ETF_position. -/
inductive TradeEvent where
  | client (tr : CompletedTrade)
  | hedge (ex : ExecutedTrade)
deriving DecidableEq

/-- Dispatch one event to the corresponding MarketMaker method. -/
def ingestEvent (mm : MarketMaker) : TradeEvent → MarketMaker × Option String
  | TradeEvent.client tr => mm.add_trade tr
  | TradeEvent.hedge ex => mm.update_ETF_position ex

/-- Ingest a sequence of events, stopping at the first raised error (a
Python exception aborts the enclosing ingestion loop). -/
def ingestAll (mm : MarketMaker) : List TradeEvent → MarketMaker × Option String
  | [] => (mm, none)
  | e :: es =>
    match ingestEvent mm e with
    | (mm1, none) => ingestAll mm1 es
    | (mm1, some err) => (mm1, some err)

/-- Instrument identifier of an event. -/
def eventTicker : TradeEvent → String
  | TradeEvent.client tr => tr.ticker
  | TradeEvent.hedge ex => ex.ticker

/-- Action string of an event. -/
def eventAction : TradeEvent → String
  | TradeEvent.client tr => tr.mm_action
  | TradeEvent.hedge ex => ex.action

/-- Volume of an event. -/
def eventVolume : TradeEvent → ℚ
  | TradeEvent.client tr => tr.trade_volume
  | TradeEvent.hedge ex => ex.trade_volume

/-- Signed volume of an event: buy counts +volume, anything else -volume. -/
def signedVolume (e : TradeEvent) : ℚ :=
  if eventAction e = "buy" then eventVolume e else -(eventVolume e)

/-- Signed sum of the volumes ingested for one instrument. -/
def signedSum (t : String) (evs : List TradeEvent) : ℚ :=
  (evs.map (fun e => if eventTicker e = t then signedVolume e else 0)).sum

/-!
PnL engine (utils/pnl.py). Inventories are defaultdict(float) instances,
modelled as association lists in key-insertion order; iteration over
.items() is the list fold, and adding to an entry keeps its place while a
new key is appended, exactly as a Python dict behaves.
-/

/-- transaction_cost from utils/pnl.py. -/
def transaction_cost (volume price fee_rate fee_per_unit : ℚ) : ℚ :=
  fee_rate * (|volume| * price) + fee_per_unit * |volume|

/-- Adding q to a defaultdict entry: the first entry with this key is
modified in place, a missing key is appended at the end. -/
def updateInv : List (String × ℚ) → String → ℚ → List (String × ℚ)
  | [], t, q => [(t, q)]
  | e :: rest, t, q =>
    if e.1 = t then (t, e.2 + q) :: rest else e :: updateInv rest t q

/-- Sum of qty * p(ticker) over inventory entries whose ticker is a price
table column: the shape of the inventory-PnL loop (with p the per-date
price delta) and of the client-book mark-to-market loop (with p the
current price row). -/
def markToMarket (cols : List String) (p : String → ℚ) :
    List (String × ℚ) → ℚ
  | [] => 0
  | e :: rest =>
    (if e.1 ∈ cols then e.2 * p e.1 else 0) + markToMarket cols p rest

/-- Sum of qty * mult(ticker) * p(ticker) over entries whose ticker is a
column: the hedge-PnL and hedge mark-to-market loops. The Python
futures_multipliers.get(ticker, 1.0) lookup is modelled by the total
function mult, an absent table being the constant-1 function. -/
def markToMarketMult (cols : List String) (mult p : String → ℚ) :
    List (String × ℚ) → ℚ
  | [] => 0
  | e :: rest =>
    (if e.1 ∈ cols then e.2 * mult e.1 * p e.1 else 0) +
      markToMarketMult cols mult p rest

/-- Carried-forward engine state: client inventory, hedge inventory, cash. -/
structure EngineState where
  invMain : List (String × ℚ)
  invHedge : List (String × ℚ)
  cash : ℚ
deriving DecidableEq

/-- Engine state before the first date. -/
def stInit : EngineState := { invMain := [], invHedge := [], cash := 0 }

/-- Accumulator of the per-date trade loop: state plus the sp, cc, hc
running totals of step 2. -/
structure TradeFlowResult where
  st : EngineState
  sp : ℚ
  cc : ℚ
  hc : ℚ
deriving DecidableEq

/-- One client trade of the step-2 loop of compute_pnl_with_attribution. -/
def applyClient (fee_rate fee_per_unit : ℚ) (r : TradeFlowResult)
    (tr : CompletedTrade) : TradeFlowResult :=
  let signed_vol := if tr.mm_action = "buy" then tr.trade_volume
    else -tr.trade_volume
  let cost := transaction_cost tr.trade_volume tr.trade_price fee_rate
    fee_per_unit
  { st := { invMain := updateInv r.st.invMain tr.ticker signed_vol
            invHedge := r.st.invHedge
            cash := r.st.cash - signed_vol * tr.trade_price - cost }
    sp := r.sp + (tr.ref_price - tr.trade_price) * signed_vol
    cc := r.cc + cost
    hc := r.hc }

/-- One hedge trade of the step-2 loop of compute_pnl_with_attribution. -/
def applyHedge (fee_rate fee_per_unit : ℚ) (r : TradeFlowResult)
    (tr : ETFPosition) : TradeFlowResult :=
  let signed_vol := if tr.action = "buy" then tr.trade_volume
    else -tr.trade_volume
  let cost := transaction_cost tr.trade_volume tr.trade_price fee_rate
    fee_per_unit
  { st := { invMain := r.st.invMain
            invHedge := updateInv r.st.invHedge tr.ticker signed_vol
            cash := r.st.cash - signed_vol * tr.trade_price - cost }
    sp := r.sp
    cc := r.cc
    hc := r.hc + cost }

/-- Raw per-date flows of the engine before the packing step. -/
structure RawRow where
  spread_pnl : ℚ
  inventory_pnl : ℚ
  hedge_pnl : ℚ
  client_cost : ℚ
  hedge_cost : ℚ
  equity : ℚ
deriving DecidableEq

/-- Zero raw row, used as a lookup default. -/
def rawZero : RawRow :=
  { spread_pnl := 0, inventory_pnl := 0, hedge_pnl := 0, client_cost := 0
    hedge_cost := 0, equity := 0 }

/-- One date of the attribution loop: price-move PnL on the carried
inventories (zero when no previous date exists), then the trade-flow
step over the client trades followed by the hedge trades of this date
(the grouping loop appends clients first), then mark-to-market equity. -/
def dayStep (cols : List String) (price : ℕ → String → ℚ)
    (fee_rate_client fee_rate_hedge fee_per_unit_client fee_per_unit_hedge :
      ℚ)
    (mult : String → ℚ) (clients : List CompletedTrade)
    (hedges : List ETFPosition) (prev_date : Option ℕ) (d : ℕ)
    (st : EngineState) : EngineState × RawRow :=
  let inv_p := match prev_date with
    | none => 0
    | some p0 =>
      markToMarket cols (fun t => price d t - price p0 t) st.invMain
  let hed_p := match prev_date with
    | none => 0
    | some p0 =>
      markToMarketMult cols mult (fun t => price d t - price p0 t) st.invHedge
  let flow := hedges.foldl (applyHedge fee_rate_hedge fee_per_unit_hedge)
    (clients.foldl (applyClient fee_rate_client fee_per_unit_client)
      { st := st, sp := 0, cc := 0, hc := 0 })
  let port_val := markToMarket cols (price d) flow.st.invMain +
    markToMarketMult cols mult (price d) flow.st.invHedge
  (flow.st,
    { spread_pnl := flow.sp, inventory_pnl := inv_p, hedge_pnl := hed_p
      client_cost := flow.cc, hedge_cost := flow.hc
      equity := flow.st.cash + port_val })

/-- Main loop of compute_pnl_with_attribution over the date index,
recording the post-date state next to each raw row. -/
def runDatesSt (mm : MarketMaker) (cols : List String)
    (price : ℕ → String → ℚ)
    (fee_rate_client fee_rate_hedge fee_per_unit_client fee_per_unit_hedge :
      ℚ)
    (mult : String → ℚ) (prev_date : Option ℕ) (st : EngineState) :
    List ℕ → List (EngineState × RawRow)
  | [] => []
  | d :: rest =>
    let pr := dayStep cols price fee_rate_client fee_rate_hedge
      fee_per_unit_client fee_per_unit_hedge mult
      (mm.completed_trades.filter (fun tr => tr.date == d))
      (mm.ETF_positions.filter (fun tr => tr.date == d)) prev_date d st
    pr :: runDatesSt mm cols price fee_rate_client fee_rate_hedge
      fee_per_unit_client fee_per_unit_hedge mult (some d) pr.1 rest

/-- State-and-row trajectory of the engine from the initial state. -/
def attrPairs (mm : MarketMaker) (dates : List ℕ) (cols : List String)
    (price : ℕ → String → ℚ)
    (fee_rate_client fee_rate_hedge fee_per_unit_client fee_per_unit_hedge :
      ℚ)
    (mult : String → ℚ) : List (EngineState × RawRow) :=
  runDatesSt mm cols price fee_rate_client fee_rate_hedge
    fee_per_unit_client fee_per_unit_hedge mult none stInit dates

/-- One row of the packed attribution DataFrame. -/
structure Row where
  spread_pnl : ℚ
  inventory_pnl : ℚ
  hedge_pnl : ℚ
  client_cost : ℚ
  hedge_cost : ℚ
  total_cost : ℚ
  total_pnl : ℚ
  equity : ℚ
deriving DecidableEq

/-- Zero row, used as a lookup default. -/
def rowZero : Row :=
  { spread_pnl := 0, inventory_pnl := 0, hedge_pnl := 0, client_cost := 0
    hedge_cost := 0, total_cost := 0, total_pnl := 0, equity := 0 }

/-- Packing step of compute_pnl_with_attribution: total_cost is the sum of
the two cost columns and total_pnl is spread + inventory + hedge minus
total_cost, each computed per row from the already-filled columns. -/
def packRow (r : RawRow) : Row :=
  let total_cost := r.client_cost + r.hedge_cost
  { spread_pnl := r.spread_pnl, inventory_pnl := r.inventory_pnl
    hedge_pnl := r.hedge_pnl, client_cost := r.client_cost
    hedge_cost := r.hedge_cost, total_cost := total_cost
    total_pnl := r.spread_pnl + r.inventory_pnl + r.hedge_pnl - total_cost
    equity := r.equity }

/-- compute_pnl_with_attribution from utils/pnl.py, one Row per date of
the price table index. -/
def compute_pnl_with_attribution (mm : MarketMaker) (dates : List ℕ)
    (cols : List String) (price : ℕ → String → ℚ)
    (fee_rate_client fee_rate_hedge fee_per_unit_client fee_per_unit_hedge :
      ℚ)
    (mult : String → ℚ) : List Row :=
  (attrPairs mm dates cols price fee_rate_client fee_rate_hedge
    fee_per_unit_client fee_per_unit_hedge mult).map (fun pr => packRow pr.2)

/-- State of compute_simple_pnl: one merged inventory plus cash. -/
structure SimpleState where
  inventory : List (String × ℚ)
  cash : ℚ
deriving DecidableEq

/-- One client trade of the per-date loop of compute_simple_pnl. -/
def applySimpleClient (fee_rate fee_per_unit : ℚ) (st : SimpleState)
    (tr : CompletedTrade) : SimpleState :=
  let signed_vol := if tr.mm_action = "buy" then tr.trade_volume
    else -tr.trade_volume
  let cost := transaction_cost tr.trade_volume tr.trade_price fee_rate
    fee_per_unit
  { inventory := updateInv st.inventory tr.ticker signed_vol
    cash := st.cash - signed_vol * tr.trade_price - cost }

/-- One hedge trade of the per-date loop of compute_simple_pnl. -/
def applySimpleHedge (fee_rate fee_per_unit : ℚ) (st : SimpleState)
    (tr : ETFPosition) : SimpleState :=
  let signed_vol := if tr.action = "buy" then tr.trade_volume
    else -tr.trade_volume
  let cost := transaction_cost tr.trade_volume tr.trade_price fee_rate
    fee_per_unit
  { inventory := updateInv st.inventory tr.ticker signed_vol
    cash := st.cash - signed_vol * tr.trade_price - cost }

/-- Date loop of compute_simple_pnl: apply the client then hedge trades of
each date, then emit cash plus mark-to-market of the merged inventory. -/
def runSimple (mm : MarketMaker) (cols : List String)
    (price : ℕ → String → ℚ)
    (fee_rate_client fee_rate_hedge fee_per_unit_client fee_per_unit_hedge :
      ℚ)
    (st : SimpleState) : List ℕ → List ℚ
  | [] => []
  | d :: rest =>
    let st1 := (mm.ETF_positions.filter (fun tr => tr.date == d)).foldl
      (applySimpleHedge fee_rate_hedge fee_per_unit_hedge)
      ((mm.completed_trades.filter (fun tr => tr.date == d)).foldl
        (applySimpleClient fee_rate_client fee_per_unit_client) st)
    (st1.cash + markToMarket cols (price d) st1.inventory) ::
      runSimple mm cols price fee_rate_client fee_rate_hedge
        fee_per_unit_client fee_per_unit_hedge st1 rest

/-- compute_simple_pnl from utils/pnl.py: the equity series alone. -/
def compute_simple_pnl (mm : MarketMaker) (dates : List ℕ)
    (cols : List String) (price : ℕ → String → ℚ)
    (fee_rate_client fee_rate_hedge fee_per_unit_client fee_per_unit_hedge :
      ℚ) : List ℚ :=
  runSimple mm cols price fee_rate_client fee_rate_hedge
    fee_per_unit_client fee_per_unit_hedge { inventory := [], cash := 0 }
    dates

/-!
Exchange (trading/exchange.py). The prices DataFrame lookup
prices.loc[date, ticker] raises KeyError exactly when the date is not in
the index or the ticker is not in the columns; execute catches that and
falls back to the reference price of the order.
-/

/-- Venue simulator state: the price table it fills against. -/
structure Exchange where
  dates : List ℕ
  cols : List String
  price : ℕ → String → ℚ

/-- Exchange.execute: fill the order at the table price when the (date,
ticker) lookup hits, at the reference price of the order otherwise. -/
def Exchange.execute (ex : Exchange) (trade : ExchangeTrade) :
    ExecutedTrade :=
  let px := if trade.date ∈ ex.dates ∧ trade.ticker ∈ ex.cols then
      ex.price trade.date trade.ticker
    else trade.ref_price
  { ticker := trade.ticker
    trade_volume := trade.trade_volume
    trade_price := px
    action := trade.action
    date := trade.date }

/-!
Quote construction (utils/quotes.py), over the reals because of tanh.
Python raises ZeroDivisionError when inventory_ideal_size is zero, which
the embedding reflects as a none result.
-/

/-- skewed_quote from utils/quotes.py. -/
noncomputable def skewed_quote (current_price base_spread inventory
    inventory_ideal_size sensitivity max_skew : ℝ) : Option (ℝ × ℝ) :=
  if inventory_ideal_size = 0 then none
  else
    let raw_skew := sensitivity * inventory / inventory_ideal_size
    let skew := current_price * max_skew * Real.tanh raw_skew
    let spread := current_price * base_spread
    some (current_price + skew - spread / 2,
      current_price + skew + spread / 2)

/-!
Derived quantities used to state the accounting invariants.
-/

/-- The total_pnl value the packing step assigns to a raw row. -/
def rawTotal (r : RawRow) : ℚ :=
  r.spread_pnl + r.inventory_pnl + r.hedge_pnl -
    (r.client_cost + r.hedge_cost)

/-- Bottom-up equity of an engine state at the prices of date d: cash
plus mark-to-market of the client book plus multiplier-weighted
mark-to-market of the hedge book. -/
def mtmEquity (cols : List String) (mult : String → ℚ)
    (price : ℕ → String → ℚ) (d : ℕ) (st : EngineState) : ℚ :=
  st.cash + markToMarket cols (price d) st.invMain +
    markToMarketMult cols mult (price d) st.invHedge

/-- Conserved quantity of the per-date trade loop: bottom-up equity minus
spread PnL plus booked costs. -/
def flowValue (cols : List String) (mult : String → ℚ)
    (price : ℕ → String → ℚ) (d : ℕ) (r : TradeFlowResult) : ℚ :=
  mtmEquity cols mult price d r.st - r.sp + r.cc + r.hc

/-!
Concrete inputs used by witnesses and counterexamples.
-/

/-- Ledger for the C1 witness: one client buy, 10 units at 99, ref 100. -/
def mmW1 : MarketMaker :=
  { mmInit with
    completed_trades := [{ ticker := "X", trade_volume := 10,
                           trade_price := 99, mm_action := "buy",
                           ref_price := 100, bid_price := 99,
                           offer_price := 101, date := 0 }] }

/-- Attribution row produced by the C1 witness input. -/
def rowW1 : Row :=
  { spread_pnl := 10, inventory_pnl := 0, hedge_pnl := 0, client_cost := 0
    hedge_cost := 0, total_cost := 0, total_pnl := 10, equity := 10 }

/-- Ledger for the C2 counterexample: one client buy, 10 units at 99, but
with reference price 90 while the price table holds 100. -/
def mmX2 : MarketMaker :=
  { mmInit with
    completed_trades := [{ ticker := "X", trade_volume := 10,
                           trade_price := 99, mm_action := "buy",
                           ref_price := 90, bid_price := 99,
                           offer_price := 101, date := 0 }] }

/-- Ledger for the C2 witness: one client buy at 99 whose reference price
100 agrees with the price table, and one hedge sell executed at the table
price. -/
def mmW2 : MarketMaker :=
  { mmInit with
    completed_trades := [{ ticker := "X", trade_volume := 10,
                           trade_price := 99, mm_action := "buy",
                           ref_price := 100, bid_price := 99,
                           offer_price := 101, date := 1 }]
    ETF_positions := [{ ticker := "X", trade_volume := 10,
                        trade_price := 100, action := "sell",
                        date := 1 }] }

/-- Price table for the C2 witness: X at 100 on date 1, 105 on date 2. -/
def pxW2 : ℕ → String → ℚ := fun d _ => if d = 1 then 100 else 105

/-- Event list for the C4 witness: client buy 10 X, hedge sell 3 X,
client sell 2 Y. -/
def evsW4 : List TradeEvent :=
  [TradeEvent.client { ticker := "X", trade_volume := 10,
                       trade_price := 99, mm_action := "buy",
                       ref_price := 100, bid_price := 99,
                       offer_price := 101, date := 0 },
   TradeEvent.hedge { ticker := "X", trade_volume := 3,
                      trade_price := 100, action := "sell", date := 0 },
   TradeEvent.client { ticker := "Y", trade_volume := 2,
                       trade_price := 50, mm_action := "sell",
                       ref_price := 50, bid_price := 49,
                       offer_price := 51, date := 1 }]

/-- The C4 witness events in a different ingestion order. -/
def evsW4r : List TradeEvent := evsW4.reverse

/-- Successfully constructed completed trade with a negative volume,
refuting constructor-time validation. -/
def badTrade : CompletedTrade :=
  { ticker := "X", trade_volume := -5, trade_price := 100,
    mm_action := "buy", ref_price := 100, bid_price := 99,
    offer_price := 101, date := 0 }

/-- Completed trade with the unknown action hold, for the C5 witness. -/
def trHold : CompletedTrade :=
  { ticker := "X", trade_volume := 5, trade_price := 100,
    mm_action := "hold", ref_price := 100, bid_price := 99,
    offer_price := 101, date := 0 }

/-- Completed trade with the unknown action cancel, for the C10 witness. -/
def trCancel : CompletedTrade :=
  { ticker := "Y", trade_volume := 2, trade_price := 50,
    mm_action := "cancel", ref_price := 50, bid_price := 49,
    offer_price := 51, date := 1 }

/-- Venue for the C9 witness: quotes X at 100 on date 0. -/
def exW9 : Exchange :=
  { dates := [0], cols := ["X"], price := fun _ _ => 100 }

/-- Hedge order for the C9 witness whose (date, ticker) is in the table. -/
def trW9 : ExchangeTrade :=
  { ticker := "X", trade_volume := 5, ref_price := 98, action := "buy",
    date := 0 }

/-- Hedge order for the C9 witness whose date misses the table. -/
def trW9m : ExchangeTrade :=
  { ticker := "X", trade_volume := 5, ref_price := 98, action := "sell",
    date := 7 }

/-!
Helper lemmas shared by several developments.
-/

/-- Effect of a defaultdict update on the guarded mark-to-market sum. -/
theorem markToMarket_updateInv (cols : List String) (p : String → ℚ)
    (inv : List (String × ℚ)) (t : String) (q : ℚ) :
    markToMarket cols p (updateInv inv t q) =
      markToMarket cols p inv + (if t ∈ cols then q * p t else 0) := by
  induction inv with
  | nil => simp [updateInv, markToMarket]
  | cons e rest ih =>
    by_cases he : e.1 = t
    · subst he
      simp [updateInv, markToMarket]
      by_cases hc : e.1 ∈ cols
      · simp [hc]; try ring
      · simp [hc]; try ring
    · simp [updateInv, he, markToMarket, ih]
      ring

/-- Effect of a defaultdict update on the multiplier-weighted sum. -/
theorem markToMarketMult_updateInv (cols : List String)
    (mult p : String → ℚ) (inv : List (String × ℚ)) (t : String) (q : ℚ) :
    markToMarketMult cols mult p (updateInv inv t q) =
      markToMarketMult cols mult p inv +
        (if t ∈ cols then q * mult t * p t else 0) := by
  induction inv with
  | nil => simp [updateInv, markToMarketMult]
  | cons e rest ih =>
    by_cases he : e.1 = t
    · subst he
      simp [updateInv, markToMarketMult]
      by_cases hc : e.1 ∈ cols
      · simp [hc]; try ring
      · simp [hc]; try ring
    · simp [updateInv, he, markToMarketMult, ih]
      ring

/-- The price-move sum with a price delta is a difference of
mark-to-market sums. -/
theorem markToMarket_sub (cols : List String) (p2 p1 : String → ℚ)
    (inv : List (String × ℚ)) :
    markToMarket cols (fun t => p2 t - p1 t) inv =
      markToMarket cols p2 inv - markToMarket cols p1 inv := by
  induction inv with
  | nil => simp [markToMarket]
  | cons e rest ih =>
    simp [markToMarket, ih]
    by_cases hc : e.1 ∈ cols
    · simp [hc]; try ring
    · simp [hc]; try ring

/-- The hedge price-move sum with a price delta is a difference of
multiplier-weighted mark-to-market sums. -/
theorem markToMarketMult_sub (cols : List String) (mult p2 p1 : String → ℚ)
    (inv : List (String × ℚ)) :
    markToMarketMult cols mult (fun t => p2 t - p1 t) inv =
      markToMarketMult cols mult p2 inv -
        markToMarketMult cols mult p1 inv := by
  induction inv with
  | nil => simp [markToMarketMult]
  | cons e rest ih =>
    simp [markToMarketMult, ih]
    by_cases hc : e.1 ∈ cols
    · simp [hc]; try ring
    · simp [hc]; try ring

/-- The engine emits exactly one state-row pair per date. -/
theorem runDatesSt_length (mm : MarketMaker) (cols : List String)
    (price : ℕ → String → ℚ) (frc frh fuc fuh : ℚ) (mult : String → ℚ) :
    ∀ (ds : List ℕ) (pd : Option ℕ) (st : EngineState),
      (runDatesSt mm cols price frc frh fuc fuh mult pd st ds).length =
        ds.length
  | [], _, _ => rfl
  | d :: rest, pd, st => by
    simp [runDatesSt,
      runDatesSt_length mm cols price frc frh fuc fuh mult rest]

/-!
Claim theorems.
-/

/-- Claim C1: in every row of the attribution table produced by
compute_pnl_with_attribution, for every MarketMaker state and every price
table, total_pnl equals spread_pnl + inventory_pnl + hedge_pnl minus
(client_cost + hedge_cost), exactly. -/
theorem total_pnl_is_component_sum (mm : MarketMaker) (dates : List ℕ)
    (cols : List String) (price : ℕ → String → ℚ) (frc frh fuc fuh : ℚ)
    (mult : String → ℚ) (r : Row)
    (hr : r ∈ compute_pnl_with_attribution mm dates cols price frc frh fuc
      fuh mult) :
    r.total_pnl = r.spread_pnl + r.inventory_pnl + r.hedge_pnl -
      (r.client_cost + r.hedge_cost) := by
  simp only [compute_pnl_with_attribution, List.mem_map] at hr
  obtain ⟨pr, _, rfl⟩ := hr
  simp [packRow]

/-- Witness for C1 at a one-trade ledger and a one-date price table. -/
theorem total_pnl_is_component_sum_witness :
    rowW1 ∈ compute_pnl_with_attribution mmW1 [0] ["X"] (fun _ _ => 100)
      0 0 0 0 (fun _ => 1) ∧
    rowW1.total_pnl = rowW1.spread_pnl + rowW1.inventory_pnl +
      rowW1.hedge_pnl - (rowW1.client_cost + rowW1.hedge_cost) := by
  have h : rowW1 ∈ compute_pnl_with_attribution mmW1 [0] ["X"]
      (fun _ _ => 100) 0 0 0 0 (fun _ => 1) := by
    norm_num [compute_pnl_with_attribution, attrPairs, runDatesSt, dayStep,
      applyClient, applyHedge, transaction_cost, markToMarket,
      markToMarketMult, updateInv, packRow, mmW1, mmInit, stInit, rowW1]
  exact ⟨h, total_pnl_is_component_sum mmW1 [0] ["X"] (fun _ _ => 100)
    0 0 0 0 (fun _ => 1) rowW1 h⟩

/-- Claim C5: ingesting a completed trade whose action is neither buy nor
sell fails immediately with the invalid-action error and leaves the
position map unmodified. -/
theorem add_trade_invalid_action_rejected (mm : MarketMaker)
    (trade : CompletedTrade) (h1 : trade.mm_action ≠ "buy")
    (h2 : trade.mm_action ≠ "sell") :
    (mm.add_trade trade).2 =
      some ("Unknown mm_action: " ++ trade.mm_action) ∧
    (mm.add_trade trade).1.current_positions = mm.current_positions := by
  refine ⟨?_, ?_⟩
  · simp [MarketMaker.add_trade, h1, h2]
  · simp [MarketMaker.add_trade, h1, h2]

/-- Witness for C5 at a concrete hold trade. -/
theorem add_trade_invalid_action_rejected_witness :
    trHold.mm_action ≠ "buy" ∧ trHold.mm_action ≠ "sell" ∧
    ((mmInit.add_trade trHold).2 =
        some ("Unknown mm_action: " ++ trHold.mm_action) ∧
      (mmInit.add_trade trHold).1.current_positions =
        mmInit.current_positions) :=
  ⟨by decide, by decide,
   add_trade_invalid_action_rejected mmInit trHold (by decide) (by decide)⟩

/-- Claim C10: on the invalid-action path, add_trade has already appended
the rejected trade to the completed-trades log, so the log grows by
exactly that trade while the position map is unchanged. -/
theorem add_trade_error_path_grows_log (mm : MarketMaker)
    (trade : CompletedTrade) (h1 : trade.mm_action ≠ "buy")
    (h2 : trade.mm_action ≠ "sell") :
    (mm.add_trade trade).1.completed_trades =
      mm.completed_trades ++ [trade] ∧
    (mm.add_trade trade).1.current_positions = mm.current_positions ∧
    (mm.add_trade trade).2.isSome = true := by
  refine ⟨?_, ?_, ?_⟩
  · simp [MarketMaker.add_trade, h1, h2]
  · simp [MarketMaker.add_trade, h1, h2]
  · simp [MarketMaker.add_trade, h1, h2]

/-- Witness for C10 at a concrete cancel trade. -/
theorem add_trade_error_path_grows_log_witness :
    trCancel.mm_action ≠ "buy" ∧ trCancel.mm_action ≠ "sell" ∧
    ((mmInit.add_trade trCancel).1.completed_trades =
        mmInit.completed_trades ++ [trCancel] ∧
      (mmInit.add_trade trCancel).1.current_positions =
        mmInit.current_positions ∧
      (mmInit.add_trade trCancel).2.isSome = true) :=
  ⟨by decide, by decide,
   add_trade_error_path_grows_log mmInit trCancel (by decide) (by decide)⟩

/-- Counterexample to claim C6: a CompletedTrade with volume -5 is
constructed successfully, so construction performs no positivity
validation and a constructed record can carry a non-positive volume. -/
theorem trade_construction_unvalidated_cex :
    badTrade.trade_volume = -5 ∧ ¬ 0 < badTrade.trade_volume := by
  refine ⟨rfl, by decide⟩

/-- Amended C6: trade record construction performs no validation; records
with any volume and price values, including non-positive ones, are built
and store the given fields unchanged. -/
theorem trade_records_built_unvalidated (ticker : String)
    (vol tp rp bp op : ℚ) (act : String) (d : ℕ) :
    (CompletedTrade.mk ticker vol tp act rp bp op d).trade_volume = vol ∧
    (CompletedTrade.mk ticker vol tp act rp bp op d).trade_price = tp ∧
    (QuotedTrade.mk ticker vol rp bp op d).trade_volume = vol ∧
    (ETFPosition.mk ticker vol tp act d).trade_volume = vol ∧
    (ExchangeTrade.mk ticker vol rp act d).trade_volume = vol :=
  ⟨rfl, rfl, rfl, rfl, rfl⟩

/-- Claim C9: Exchange.execute preserves ticker, volume, action and
timestamp, fills at the table price when the (date, ticker) lookup hits,
and falls back to the exact reference price of the order otherwise. -/
theorem exchange_execute_report (ex : Exchange) (trade : ExchangeTrade) :
    (ex.execute trade).ticker = trade.ticker ∧
    (ex.execute trade).trade_volume = trade.trade_volume ∧
    (ex.execute trade).action = trade.action ∧
    (ex.execute trade).date = trade.date ∧
    (trade.date ∈ ex.dates ∧ trade.ticker ∈ ex.cols →
      (ex.execute trade).trade_price = ex.price trade.date trade.ticker) ∧
    (¬ (trade.date ∈ ex.dates ∧ trade.ticker ∈ ex.cols) →
      (ex.execute trade).trade_price = trade.ref_price) := by
  refine ⟨rfl, rfl, rfl, rfl, ?_, ?_⟩
  · intro h
    simp [Exchange.execute, h]
  · intro h
    simp [Exchange.execute, h]

/-- Witness for C9: a hit fills at the table price 100, a miss falls back
to the reference price 98. -/
theorem exchange_execute_report_witness :
    (exW9.execute trW9).trade_price = 100 ∧
    (exW9.execute trW9m).trade_price = 98 :=
  ⟨((exchange_execute_report exW9 trW9).2.2.2.2.1 (by decide)).trans
      (by decide),
   ((exchange_execute_report exW9 trW9m).2.2.2.2.2 (by decide)).trans
      (by decide)⟩

/-- Claim C8: inventory entries whose instrument is absent from the price
table columns contribute nothing to the price-move PnL and mark-to-market
sums of either book (dropping them changes no value), and the engine is
total, emitting one row per price-table date without error. -/
theorem absent_instruments_contribute_nothing (cols : List String)
    (p mult : String → ℚ) (inv : List (String × ℚ)) :
    markToMarket cols p (inv.filter (fun e => decide (e.1 ∈ cols))) =
      markToMarket cols p inv ∧
    markToMarketMult cols mult p
        (inv.filter (fun e => decide (e.1 ∈ cols))) =
      markToMarketMult cols mult p inv ∧
    ∀ (mm : MarketMaker) (dates : List ℕ) (price : ℕ → String → ℚ)
      (frc frh fuc fuh : ℚ),
      (compute_pnl_with_attribution mm dates cols price frc frh fuc fuh
        mult).length = dates.length := by
  refine ⟨?_, ?_, ?_⟩
  · induction inv with
    | nil => simp
    | cons e rest ih =>
      by_cases hc : e.1 ∈ cols
      · simp [hc, markToMarket, ih]
      · simp [hc, markToMarket, ih]
  · induction inv with
    | nil => simp
    | cons e rest ih =>
      by_cases hc : e.1 ∈ cols
      · simp [hc, markToMarketMult, ih]
      · simp [hc, markToMarketMult, ih]
  · intro mm dates price frc frh fuc fuh
    simp [compute_pnl_with_attribution, attrPairs,
      runDatesSt_length mm cols price frc frh fuc fuh mult dates]

/-- A valid buy or sell event never errors and moves the position of its
instrument by exactly its signed volume. -/
theorem ingestEvent_valid (mm : MarketMaker) (e : TradeEvent)
    (hv : eventAction e = "buy" ∨ eventAction e = "sell") :
    (ingestEvent mm e).2 = none ∧
    ∀ t, (ingestEvent mm e).1.current_positions t =
      mm.current_positions t +
        (if eventTicker e = t then signedVolume e else 0) := by
  cases e with
  | client tr =>
    simp only [eventAction] at hv
    rcases hv with h | h
    all_goals refine ⟨by simp [ingestEvent, MarketMaker.add_trade, h], ?_⟩
    all_goals intro t
    all_goals by_cases ht : t = tr.ticker
    · subst ht
      simp [ingestEvent, MarketMaker.add_trade, h, signedVolume,
        eventAction, eventTicker, eventVolume]
    · have ht2 : ¬ tr.ticker = t := fun hh => ht hh.symm
      simp [ingestEvent, MarketMaker.add_trade, h, signedVolume,
        eventAction, eventTicker, eventVolume, ht, ht2]
    · subst ht
      simp [ingestEvent, MarketMaker.add_trade, h, signedVolume,
        eventAction, eventTicker, eventVolume, sub_eq_add_neg]
    · have ht2 : ¬ tr.ticker = t := fun hh => ht hh.symm
      simp [ingestEvent, MarketMaker.add_trade, h, signedVolume,
        eventAction, eventTicker, eventVolume, ht, ht2]
  | hedge ex =>
    simp only [eventAction] at hv
    rcases hv with h | h
    all_goals refine
      ⟨by simp [ingestEvent, MarketMaker.update_ETF_position, h], ?_⟩
    all_goals intro t
    all_goals by_cases ht : t = ex.ticker
    · subst ht
      simp [ingestEvent, MarketMaker.update_ETF_position, h, signedVolume,
        eventAction, eventTicker, eventVolume]
    · have ht2 : ¬ ex.ticker = t := fun hh => ht hh.symm
      simp [ingestEvent, MarketMaker.update_ETF_position, h, signedVolume,
        eventAction, eventTicker, eventVolume, ht, ht2]
    · subst ht
      simp [ingestEvent, MarketMaker.update_ETF_position, h, signedVolume,
        eventAction, eventTicker, eventVolume, sub_eq_add_neg]
    · have ht2 : ¬ ex.ticker = t := fun hh => ht hh.symm
      simp [ingestEvent, MarketMaker.update_ETF_position, h, signedVolume,
        eventAction, eventTicker, eventVolume, ht, ht2]

/-- Folding valid events never errors and accumulates the signed-volume
sum on top of any starting position. -/
theorem ingestAll_positions (t : String) :
    ∀ (evs : List TradeEvent) (mm : MarketMaker),
      (∀ e ∈ evs, eventAction e = "buy" ∨ eventAction e = "sell") →
      (ingestAll mm evs).2 = none ∧
      (ingestAll mm evs).1.current_positions t =
        mm.current_positions t + signedSum t evs
  | [], mm, _ => by simp [ingestAll, signedSum]
  | e :: es, mm, hv => by
    have he := ingestEvent_valid mm e (hv e (by simp))
    rcases hme : ingestEvent mm e with ⟨mm1, err⟩
    rw [hme] at he
    obtain ⟨he1, he2⟩ := he
    simp only at he1
    subst he1
    have ih := ingestAll_positions t es mm1
      (fun x hx => hv x (by simp [hx]))
    constructor
    · simp only [ingestAll, hme]
      exact ih.1
    · simp only [ingestAll, hme]
      rw [ih.2]
      have := he2 t
      simp only at this
      rw [this]
      simp only [signedSum, List.map_cons, List.sum_cons]
      ring

/-- Claim C4: after ingesting any sequence of valid client and hedge
trades from a fresh ledger, each instrument position equals the signed
sum of the ingested volumes for it (buy positive, sell negative), and any
reordering of the sequence yields the same positions. -/
theorem positions_are_signed_sums (evs evs2 : List TradeEvent)
    (hv : ∀ e ∈ evs, eventAction e = "buy" ∨ eventAction e = "sell")
    (hp : evs.Perm evs2) (t : String) :
    (ingestAll mmInit evs).1.current_positions t = signedSum t evs ∧
    (ingestAll mmInit evs2).1.current_positions t = signedSum t evs := by
  have h1 := ingestAll_positions t evs mmInit hv
  have h2 := ingestAll_positions t evs2 mmInit
    (fun e he => hv e (hp.mem_iff.mpr he))
  have hs : signedSum t evs2 = signedSum t evs :=
    ((hp.map
      (fun e => if eventTicker e = t then signedVolume e else 0)).sum_eq).symm
  constructor
  · rw [h1.2]
    simp [mmInit]
  · rw [h2.2, hs]
    simp [mmInit]

/-- Witness for C4 at a three-event sequence and its reversal. -/
theorem positions_are_signed_sums_witness :
    (∀ e ∈ evsW4, eventAction e = "buy" ∨ eventAction e = "sell") ∧
    evsW4.Perm evsW4r ∧
    ((ingestAll mmInit evsW4).1.current_positions "X" =
        signedSum "X" evsW4 ∧
      (ingestAll mmInit evsW4r).1.current_positions "X" =
        signedSum "X" evsW4) := by
  have hv : ∀ e ∈ evsW4, eventAction e = "buy" ∨ eventAction e = "sell" :=
    by decide
  have hp : evsW4.Perm evsW4r := by
    simpa [evsW4r] using (List.reverse_perm evsW4).symm
  exact ⟨hv, hp, positions_are_signed_sums evsW4 evsW4r hv hp "X"⟩

/-- With the default unit multiplier the weighted mark-to-market sum is
the plain one. -/
theorem markToMarketMult_one (cols : List String) (p : String → ℚ) :
    ∀ inv, markToMarketMult cols (fun _ => 1) p inv =
      markToMarket cols p inv
  | [] => rfl
  | e :: rest => by
    simp [markToMarketMult, markToMarket, markToMarketMult_one cols p rest]

/-- The client-trade folds of the simple and attribution engines keep
cash equal and keep the merged inventory mark-to-market equal to the sum
over the two attribution books, for every valuation function. -/
theorem simple_fold_clients (cols : List String) (fr fu : ℚ) :
    ∀ (cs : List CompletedTrade) (stS : SimpleState) (r : TradeFlowResult),
      stS.cash = r.st.cash →
      (∀ p, markToMarket cols p stS.inventory =
        markToMarket cols p r.st.invMain +
          markToMarket cols p r.st.invHedge) →
      (cs.foldl (applySimpleClient fr fu) stS).cash =
        (cs.foldl (applyClient fr fu) r).st.cash ∧
      ∀ p, markToMarket cols p
          (cs.foldl (applySimpleClient fr fu) stS).inventory =
        markToMarket cols p (cs.foldl (applyClient fr fu) r).st.invMain +
          markToMarket cols p (cs.foldl (applyClient fr fu) r).st.invHedge
  | [], _, _, hc, hm => ⟨hc, hm⟩
  | tr :: cs, stS, r, hc, hm => by
    simp only [List.foldl_cons]
    apply simple_fold_clients cols fr fu cs
    · simp [applySimpleClient, applyClient, hc]
    · intro p
      simp only [applySimpleClient, applyClient]
      rw [markToMarket_updateInv, markToMarket_updateInv, hm p]
      ring

/-- The hedge-trade folds of the simple and attribution engines keep cash
equal and the merged mark-to-market equal to the sum over the two books. -/
theorem simple_fold_hedges (cols : List String) (fr fu : ℚ) :
    ∀ (hs : List ETFPosition) (stS : SimpleState) (r : TradeFlowResult),
      stS.cash = r.st.cash →
      (∀ p, markToMarket cols p stS.inventory =
        markToMarket cols p r.st.invMain +
          markToMarket cols p r.st.invHedge) →
      (hs.foldl (applySimpleHedge fr fu) stS).cash =
        (hs.foldl (applyHedge fr fu) r).st.cash ∧
      ∀ p, markToMarket cols p
          (hs.foldl (applySimpleHedge fr fu) stS).inventory =
        markToMarket cols p (hs.foldl (applyHedge fr fu) r).st.invMain +
          markToMarket cols p (hs.foldl (applyHedge fr fu) r).st.invHedge
  | [], _, _, hc, hm => ⟨hc, hm⟩
  | tr :: hs, stS, r, hc, hm => by
    simp only [List.foldl_cons]
    apply simple_fold_hedges cols fr fu hs
    · simp [applySimpleHedge, applyHedge, hc]
    · intro p
      simp only [applySimpleHedge, applyHedge]
      rw [markToMarket_updateInv, markToMarket_updateInv, hm p]
      ring

/-- Date-by-date, the simple engine emits exactly the equity of the
attribution engine run with unit multipliers, whenever cash agrees and
the merged inventory values like the two books together. -/
theorem runSimple_eq_attr (mm : MarketMaker) (cols : List String)
    (price : ℕ → String → ℚ) (frc frh fuc fuh : ℚ) :
    ∀ (ds : List ℕ) (stS : SimpleState) (st : EngineState) (pd : Option ℕ),
      stS.cash = st.cash →
      (∀ p, markToMarket cols p stS.inventory =
        markToMarket cols p st.invMain + markToMarket cols p st.invHedge) →
      runSimple mm cols price frc frh fuc fuh stS ds =
        (runDatesSt mm cols price frc frh fuc fuh (fun _ => 1) pd st
          ds).map (fun pr => pr.2.equity)
  | [], _, _, _, _, _ => rfl
  | d :: rest, stS, st, pd, hc, hm => by
    have hcl := simple_fold_clients cols frc fuc
      (mm.completed_trades.filter (fun tr => tr.date == d)) stS
      { st := st, sp := 0, cc := 0, hc := 0 } hc hm
    have hhe := simple_fold_hedges cols frh fuh
      (mm.ETF_positions.filter (fun tr => tr.date == d))
      ((mm.completed_trades.filter (fun tr => tr.date == d)).foldl
        (applySimpleClient frc fuc) stS)
      ((mm.completed_trades.filter (fun tr => tr.date == d)).foldl
        (applyClient frc fuc) { st := st, sp := 0, cc := 0, hc := 0 })
      hcl.1 hcl.2
    simp only [runSimple, runDatesSt, dayStep, List.map_cons]
    rw [List.cons_eq_cons]
    constructor
    · rw [markToMarketMult_one, hhe.1, hhe.2 (price d)]
    · exact runSimple_eq_attr mm cols price frc frh fuc fuh rest _ _
        (some d) hhe.1 hhe.2

/-- Claim C3: for identical inputs and fee parameters, the equity series
of compute_simple_pnl equals, date by date, the equity column of
compute_pnl_with_attribution (run with its default unit multipliers, the
simple engine having no multiplier input). -/
theorem simple_pnl_matches_attribution_equity (mm : MarketMaker)
    (dates : List ℕ) (cols : List String) (price : ℕ → String → ℚ)
    (frc frh fuc fuh : ℚ) :
    compute_simple_pnl mm dates cols price frc frh fuc fuh =
      (compute_pnl_with_attribution mm dates cols price frc frh fuc fuh
        (fun _ => 1)).map Row.equity := by
  rw [compute_simple_pnl, compute_pnl_with_attribution, attrPairs]
  rw [runSimple_eq_attr mm cols price frc frh fuc fuh dates
    { inventory := [], cash := 0 } stInit none rfl
    (by intro p; simp [markToMarket, stInit])]
  simp [List.map_map, Function.comp, packRow]

/-- One client trade whose instrument is priced and whose reference price
is the table price of the day conserves the flow value. -/
theorem flowValue_applyClient (cols : List String) (mult : String → ℚ)
    (price : ℕ → String → ℚ) (d : ℕ) (fr fu : ℚ) (r : TradeFlowResult)
    (tr : CompletedTrade) (h1 : tr.ticker ∈ cols)
    (h2 : tr.ref_price = price d tr.ticker) :
    flowValue cols mult price d (applyClient fr fu r tr) =
      flowValue cols mult price d r := by
  simp only [flowValue, mtmEquity, applyClient]
  rw [markToMarket_updateInv, if_pos h1, h2]
  ring

/-- One hedge trade whose instrument is priced and whose execution price
is the multiplier-weighted table price conserves the flow value. -/
theorem flowValue_applyHedge (cols : List String) (mult : String → ℚ)
    (price : ℕ → String → ℚ) (d : ℕ) (fr fu : ℚ) (r : TradeFlowResult)
    (tr : ETFPosition) (h1 : tr.ticker ∈ cols)
    (h2 : tr.trade_price = mult tr.ticker * price d tr.ticker) :
    flowValue cols mult price d (applyHedge fr fu r tr) =
      flowValue cols mult price d r := by
  simp only [flowValue, mtmEquity, applyHedge]
  rw [markToMarketMult_updateInv, if_pos h1, h2]
  ring

/-- The client-trade fold conserves the flow value. -/
theorem flowValue_fold_clients (cols : List String) (mult : String → ℚ)
    (price : ℕ → String → ℚ) (d : ℕ) (fr fu : ℚ) :
    ∀ (cs : List CompletedTrade) (r : TradeFlowResult),
      (∀ tr ∈ cs, tr.ticker ∈ cols ∧ tr.ref_price = price d tr.ticker) →
      flowValue cols mult price d (cs.foldl (applyClient fr fu) r) =
        flowValue cols mult price d r
  | [], _, _ => rfl
  | tr :: cs, r, h => by
    rw [List.foldl_cons]
    rw [flowValue_fold_clients cols mult price d fr fu cs _
      (fun x hx => h x (List.mem_cons_of_mem _ hx))]
    exact flowValue_applyClient cols mult price d fr fu r tr
      (h tr (List.mem_cons_self _ _)).1 (h tr (List.mem_cons_self _ _)).2

/-- The hedge-trade fold conserves the flow value. -/
theorem flowValue_fold_hedges (cols : List String) (mult : String → ℚ)
    (price : ℕ → String → ℚ) (d : ℕ) (fr fu : ℚ) :
    ∀ (hs : List ETFPosition) (r : TradeFlowResult),
      (∀ tr ∈ hs, tr.ticker ∈ cols ∧
        tr.trade_price = mult tr.ticker * price d tr.ticker) →
      flowValue cols mult price d (hs.foldl (applyHedge fr fu) r) =
        flowValue cols mult price d r
  | [], _, _ => rfl
  | tr :: hs, r, h => by
    rw [List.foldl_cons]
    rw [flowValue_fold_hedges cols mult price d fr fu hs _
      (fun x hx => h x (List.mem_cons_of_mem _ hx))]
    exact flowValue_applyHedge cols mult price d fr fu r tr
      (h tr (List.mem_cons_self _ _)).1 (h tr (List.mem_cons_self _ _)).2

/-- Bottom-up equity of the fresh state is zero at any date. -/
theorem mtmEquity_stInit (cols : List String) (mult : String → ℚ)
    (price : ℕ → String → ℚ) (d : ℕ) :
    mtmEquity cols mult price d stInit = 0 := by
  simp [mtmEquity, stInit, markToMarket, markToMarketMult]

/-- A date step with a previous date moves bottom-up equity by exactly
the total PnL of the emitted row, when the trades of the day price at the
table (reference price for client trades, multiplier-weighted table price
for hedge fills) and trade priced instruments. -/
theorem dayStep_mtmEquity_some (cols : List String)
    (price : ℕ → String → ℚ) (frc frh fuc fuh : ℚ) (mult : String → ℚ)
    (clients : List CompletedTrade) (hedges : List ETFPosition) (p d : ℕ)
    (st : EngineState)
    (hcs : ∀ tr ∈ clients, tr.ticker ∈ cols ∧
      tr.ref_price = price d tr.ticker)
    (hhs : ∀ tr ∈ hedges, tr.ticker ∈ cols ∧
      tr.trade_price = mult tr.ticker * price d tr.ticker) :
    mtmEquity cols mult price d
        (dayStep cols price frc frh fuc fuh mult clients hedges (some p) d
          st).1 =
      mtmEquity cols mult price p st +
        rawTotal (dayStep cols price frc frh fuc fuh mult clients hedges
          (some p) d st).2 := by
  have hflow := (flowValue_fold_hedges cols mult price d frh fuh hedges
    (clients.foldl (applyClient frc fuc)
      { st := st, sp := 0, cc := 0, hc := 0 }) hhs).trans
    (flowValue_fold_clients cols mult price d frc fuc clients
      { st := st, sp := 0, cc := 0, hc := 0 } hcs)
  simp only [dayStep, rawTotal]
  rw [markToMarket_sub, markToMarketMult_sub]
  simp only [flowValue, mtmEquity] at hflow ⊢
  linarith [hflow]

/-- The first date step (no previous date) moves bottom-up equity from
its pre-state value by the total PnL of the emitted row. -/
theorem dayStep_mtmEquity_none (cols : List String)
    (price : ℕ → String → ℚ) (frc frh fuc fuh : ℚ) (mult : String → ℚ)
    (clients : List CompletedTrade) (hedges : List ETFPosition) (d : ℕ)
    (st : EngineState)
    (hcs : ∀ tr ∈ clients, tr.ticker ∈ cols ∧
      tr.ref_price = price d tr.ticker)
    (hhs : ∀ tr ∈ hedges, tr.ticker ∈ cols ∧
      tr.trade_price = mult tr.ticker * price d tr.ticker) :
    mtmEquity cols mult price d
        (dayStep cols price frc frh fuc fuh mult clients hedges none d
          st).1 =
      mtmEquity cols mult price d st +
        rawTotal (dayStep cols price frc frh fuc fuh mult clients hedges
          none d st).2 := by
  have hflow := (flowValue_fold_hedges cols mult price d frh fuh hedges
    (clients.foldl (applyClient frc fuc)
      { st := st, sp := 0, cc := 0, hc := 0 }) hhs).trans
    (flowValue_fold_clients cols mult price d frc fuc clients
      { st := st, sp := 0, cc := 0, hc := 0 } hcs)
  simp only [dayStep, rawTotal]
  simp only [flowValue, mtmEquity] at hflow ⊢
  linarith [hflow]

/-- The trades the run filters for date d satisfy the per-day pricing
conditions whenever the global relativized conditions hold and d is a run
date. -/
theorem filtered_clients_cond (mm : MarketMaker) (cols : List String)
    (price : ℕ → String → ℚ) (ds : List ℕ) (d : ℕ) (hd : d ∈ ds)
    (hcds : ∀ tr ∈ mm.completed_trades, tr.date ∈ ds →
      tr.ticker ∈ cols ∧ tr.ref_price = price tr.date tr.ticker) :
    ∀ tr ∈ mm.completed_trades.filter (fun tr => tr.date == d),
      tr.ticker ∈ cols ∧ tr.ref_price = price d tr.ticker := by
  intro tr htr
  rw [List.mem_filter] at htr
  have hdate : tr.date = d := by simpa using htr.2
  have := hcds tr htr.1 (by rw [hdate]; exact hd)
  rwa [hdate] at this

/-- Hedge-side version of the per-day condition transfer. -/
theorem filtered_hedges_cond (mm : MarketMaker) (cols : List String)
    (price : ℕ → String → ℚ) (mult : String → ℚ) (ds : List ℕ) (d : ℕ)
    (hd : d ∈ ds)
    (hhds : ∀ tr ∈ mm.ETF_positions, tr.date ∈ ds →
      tr.ticker ∈ cols ∧
        tr.trade_price = mult tr.ticker * price tr.date tr.ticker) :
    ∀ tr ∈ mm.ETF_positions.filter (fun tr => tr.date == d),
      tr.ticker ∈ cols ∧
        tr.trade_price = mult tr.ticker * price d tr.ticker := by
  intro tr htr
  rw [List.mem_filter] at htr
  have hdate : tr.date = d := by simpa using htr.2
  have := hhds tr htr.1 (by rw [hdate]; exact hd)
  rwa [hdate] at this

/-- Telescoping of bottom-up equity along the run, from a state whose
previous date is p: the value after the n-th date is the starting value
plus the cumulative total PnL of the emitted rows. -/
theorem runDatesSt_telescope_some (mm : MarketMaker) (cols : List String)
    (price : ℕ → String → ℚ) (frc frh fuc fuh : ℚ) (mult : String → ℚ) :
    ∀ (ds : List ℕ) (st : EngineState) (p : ℕ),
      (∀ tr ∈ mm.completed_trades, tr.date ∈ ds →
        tr.ticker ∈ cols ∧ tr.ref_price = price tr.date tr.ticker) →
      (∀ tr ∈ mm.ETF_positions, tr.date ∈ ds →
        tr.ticker ∈ cols ∧
          tr.trade_price = mult tr.ticker * price tr.date tr.ticker) →
      ∀ n, n < ds.length →
        mtmEquity cols mult price (ds.getD n 0)
            ((runDatesSt mm cols price frc frh fuc fuh mult (some p) st
              ds).getD n (stInit, rawZero)).1 =
          mtmEquity cols mult price p st +
            (((runDatesSt mm cols price frc frh fuc fuh mult (some p) st
              ds).take (n + 1)).map (fun pr => rawTotal pr.2)).sum
  | [], _, _, _, _, n, hn => absurd hn (by simp)
  | d :: rest, st, p, hcds, hhds, 0, _ => by
    have hcs := filtered_clients_cond mm cols price (d :: rest) d
      (List.mem_cons_self _ _) hcds
    have hhs := filtered_hedges_cond mm cols price mult (d :: rest) d
      (List.mem_cons_self _ _) hhds
    simp only [runDatesSt, List.getD_cons_zero, List.take_succ_cons,
      List.take_zero, List.map_cons, List.map_nil, List.sum_cons,
      List.sum_nil, List.getD_cons_zero]
    rw [add_zero]
    exact dayStep_mtmEquity_some cols price frc frh fuc fuh mult _ _ p d st
      hcs hhs
  | d :: rest, st, p, hcds, hhds, n + 1, hn => by
    have hcs := filtered_clients_cond mm cols price (d :: rest) d
      (List.mem_cons_self _ _) hcds
    have hhs := filtered_hedges_cond mm cols price mult (d :: rest) d
      (List.mem_cons_self _ _) hhds
    have ih := runDatesSt_telescope_some mm cols price frc frh fuc fuh mult
      rest
      (dayStep cols price frc frh fuc fuh mult
        (mm.completed_trades.filter (fun tr => tr.date == d))
        (mm.ETF_positions.filter (fun tr => tr.date == d)) (some p) d
        st).1 d
      (fun tr htr hdr => hcds tr htr (List.mem_cons_of_mem _ hdr))
      (fun tr htr hdr => hhds tr htr (List.mem_cons_of_mem _ hdr))
      n (by simpa using hn)
    simp only [runDatesSt, List.getD_cons_succ, List.take_succ_cons,
      List.map_cons, List.sum_cons]
    rw [ih]
    rw [dayStep_mtmEquity_some cols price frc frh fuc fuh mult _ _ p d st
      hcs hhs]
    ring

/-- Telescoping from the initial state: the bottom-up equity after the
n-th date equals the cumulative total PnL of the emitted rows. -/
theorem runDatesSt_telescope_none (mm : MarketMaker) (cols : List String)
    (price : ℕ → String → ℚ) (frc frh fuc fuh : ℚ) (mult : String → ℚ)
    (ds : List ℕ)
    (hcds : ∀ tr ∈ mm.completed_trades, tr.date ∈ ds →
      tr.ticker ∈ cols ∧ tr.ref_price = price tr.date tr.ticker)
    (hhds : ∀ tr ∈ mm.ETF_positions, tr.date ∈ ds →
      tr.ticker ∈ cols ∧
        tr.trade_price = mult tr.ticker * price tr.date tr.ticker)
    (n : ℕ) (hn : n < ds.length) :
    mtmEquity cols mult price (ds.getD n 0)
        ((runDatesSt mm cols price frc frh fuc fuh mult none stInit
          ds).getD n (stInit, rawZero)).1 =
      (((runDatesSt mm cols price frc frh fuc fuh mult none stInit
        ds).take (n + 1)).map (fun pr => rawTotal pr.2)).sum := by
  cases ds with
  | nil => exact absurd hn (by simp)
  | cons d rest =>
    have hcs := filtered_clients_cond mm cols price (d :: rest) d
      (List.mem_cons_self _ _) hcds
    have hhs := filtered_hedges_cond mm cols price mult (d :: rest) d
      (List.mem_cons_self _ _) hhds
    cases n with
    | zero =>
      simp only [runDatesSt, List.getD_cons_zero, List.take_succ_cons,
        List.take_zero, List.map_cons, List.map_nil, List.sum_cons,
        List.sum_nil]
      rw [add_zero]
      rw [dayStep_mtmEquity_none cols price frc frh fuc fuh mult _ _ d
        stInit hcs hhs]
      rw [mtmEquity_stInit]
      ring
    | succ n =>
      have ih := runDatesSt_telescope_some mm cols price frc frh fuc fuh
        mult rest
        (dayStep cols price frc frh fuc fuh mult
          (mm.completed_trades.filter (fun tr => tr.date == d))
          (mm.ETF_positions.filter (fun tr => tr.date == d)) none d
          stInit).1 d
        (fun tr htr hdr => hcds tr htr (List.mem_cons_of_mem _ hdr))
        (fun tr htr hdr => hhds tr htr (List.mem_cons_of_mem _ hdr))
        n (by simpa using hn)
      simp only [runDatesSt, List.getD_cons_succ, List.take_succ_cons,
        List.map_cons, List.sum_cons]
      rw [ih]
      rw [dayStep_mtmEquity_none cols price frc frh fuc fuh mult _ _ d
        stInit hcs hhs]
      rw [mtmEquity_stInit]
      ring

/-- The equity of every emitted row is the bottom-up equity of the state
recorded next to it, at the prices of its date. -/
theorem runDatesSt_equity (mm : MarketMaker) (cols : List String)
    (price : ℕ → String → ℚ) (frc frh fuc fuh : ℚ) (mult : String → ℚ) :
    ∀ (ds : List ℕ) (pd : Option ℕ) (st : EngineState) (n : ℕ),
      n < ds.length →
      ((runDatesSt mm cols price frc frh fuc fuh mult pd st ds).getD n
          (stInit, rawZero)).2.equity =
        mtmEquity cols mult price (ds.getD n 0)
          ((runDatesSt mm cols price frc frh fuc fuh mult pd st ds).getD n
            (stInit, rawZero)).1
  | [], _, _, n, hn => absurd hn (by simp)
  | d :: rest, pd, st, 0, _ => by
    simp only [runDatesSt, List.getD_cons_zero, dayStep, mtmEquity]
    ring
  | d :: rest, pd, st, n + 1, hn => by
    simp only [runDatesSt, List.getD_cons_succ]
    exact runDatesSt_equity mm cols price frc frh fuc fuh mult rest
      (some d) _ n (by simpa using hn)

/-- The packed total_pnl of a raw row is its rawTotal. -/
theorem packRow_total_pnl (r : RawRow) :
    (packRow r).total_pnl = rawTotal r := by
  simp [packRow, rawTotal]

/-- Counterexample to claim C2: with a single client buy whose reference
price 90 differs from the table price 100 at its date, the one-date
attribution table has equity 10 but total_pnl -90, so equity is not the
cumulative sum of total_pnl. -/
theorem equity_cumulative_pnl_cex :
    ((compute_pnl_with_attribution mmX2 [0] ["X"] (fun _ _ => 100) 0 0 0 0
        (fun _ => 1)).getD 0 rowZero).equity = 10 ∧
    ((compute_pnl_with_attribution mmX2 [0] ["X"] (fun _ _ => 100) 0 0 0 0
        (fun _ => 1)).getD 0 rowZero).total_pnl = -90 ∧
    ¬ ((compute_pnl_with_attribution mmX2 [0] ["X"] (fun _ _ => 100) 0 0 0
          0 (fun _ => 1)).getD 0 rowZero).equity =
        (((compute_pnl_with_attribution mmX2 [0] ["X"] (fun _ _ => 100) 0 0
          0 0 (fun _ => 1)).take 1).map Row.total_pnl).sum := by
  norm_num [compute_pnl_with_attribution, attrPairs, runDatesSt, dayStep,
    applyClient, applyHedge, transaction_cost, markToMarket,
    markToMarketMult, updateInv, packRow, mmX2, mmInit, stInit, rowZero]

/-- Amended C2: for every MarketMaker state and every price table, the
equity of the n-th row is, unconditionally, the bottom-up value: cash
after that date plus mark-to-market of both inventories at that date's
prices. When additionally every trade dated in the table trades a priced
instrument, every client trade's reference price is the table price of
its date, and every hedge fill's price is the multiplier-weighted table
price of its date, equity also equals the cumulative sum of total_pnl up
to that row. -/
theorem equity_decomposition_and_cumulative (mm : MarketMaker)
    (dates : List ℕ) (cols : List String) (price : ℕ → String → ℚ)
    (frc frh fuc fuh : ℚ) (mult : String → ℚ)
    (n : ℕ) (hn : n < dates.length) :
    ((compute_pnl_with_attribution mm dates cols price frc frh fuc fuh
        mult).getD n rowZero).equity =
      mtmEquity cols mult price (dates.getD n 0)
        ((attrPairs mm dates cols price frc frh fuc fuh mult).getD n
          (stInit, rawZero)).1 ∧
    ((∀ tr ∈ mm.completed_trades, tr.date ∈ dates →
        tr.ticker ∈ cols ∧ tr.ref_price = price tr.date tr.ticker) →
      (∀ tr ∈ mm.ETF_positions, tr.date ∈ dates →
        tr.ticker ∈ cols ∧
          tr.trade_price = mult tr.ticker * price tr.date tr.ticker) →
      ((compute_pnl_with_attribution mm dates cols price frc frh fuc fuh
          mult).getD n rowZero).equity =
        (((compute_pnl_with_attribution mm dates cols price frc frh fuc
          fuh mult).take (n + 1)).map Row.total_pnl).sum) := by
  have hlen : (attrPairs mm dates cols price frc frh fuc fuh
      mult).length = dates.length := by
    rw [attrPairs]
    exact runDatesSt_length mm cols price frc frh fuc fuh mult dates none
      stInit
  have hrow : (compute_pnl_with_attribution mm dates cols price frc frh
      fuc fuh mult).getD n rowZero =
      packRow ((attrPairs mm dates cols price frc frh fuc fuh mult).getD n
        (stInit, rawZero)).2 := by
    rw [compute_pnl_with_attribution]
    rw [List.getD_eq_getElem _ _ (by rw [List.length_map, hlen]; exact hn)]
    rw [List.getElem_map]
    rw [List.getD_eq_getElem _ _ (by rw [hlen]; exact hn)]
  have heq : ((attrPairs mm dates cols price frc frh fuc fuh mult).getD n
      (stInit, rawZero)).2.equity =
      mtmEquity cols mult price (dates.getD n 0)
        ((attrPairs mm dates cols price frc frh fuc fuh mult).getD n
          (stInit, rawZero)).1 := by
    rw [attrPairs]
    exact runDatesSt_equity mm cols price frc frh fuc fuh mult dates none
      stInit n hn
  have hmap : ((compute_pnl_with_attribution mm dates cols price frc frh
      fuc fuh mult).take (n + 1)).map Row.total_pnl =
      ((attrPairs mm dates cols price frc frh fuc fuh mult).take
        (n + 1)).map (fun pr => rawTotal pr.2) := by
    rw [compute_pnl_with_attribution, ← List.map_take, List.map_map]
    apply List.map_congr_left
    intro pr _
    exact packRow_total_pnl pr.2
  constructor
  · rw [hrow]
    show ((attrPairs mm dates cols price frc frh fuc fuh mult).getD n
      (stInit, rawZero)).2.equity = _
    exact heq
  · intro hc hh
    rw [hrow]
    show ((attrPairs mm dates cols price frc frh fuc fuh mult).getD n
      (stInit, rawZero)).2.equity = _
    rw [heq, hmap, attrPairs]
    exact runDatesSt_telescope_none mm cols price frc frh fuc fuh mult
      dates hc hh n hn

/-- Witness for amended C2 at a two-date scenario whose trades satisfy
the pricing conditions, evaluated at the second date: the unconditional
decomposition, and the cumulative equality with the inner pricing
conditions discharged. -/
theorem equity_decomposition_and_cumulative_witness :
    1 < [1, 2].length ∧
    (((compute_pnl_with_attribution mmW2 [1, 2] ["X"] pxW2 0 0 0 0
        (fun _ => 1)).getD 1 rowZero).equity =
      mtmEquity ["X"] (fun _ => 1) pxW2 ([1, 2].getD 1 0)
        ((attrPairs mmW2 [1, 2] ["X"] pxW2 0 0 0 0 (fun _ => 1)).getD 1
          (stInit, rawZero)).1) ∧
    (∀ tr ∈ mmW2.completed_trades, tr.date ∈ [1, 2] →
      tr.ticker ∈ ["X"] ∧ tr.ref_price = pxW2 tr.date tr.ticker) ∧
    (∀ tr ∈ mmW2.ETF_positions, tr.date ∈ [1, 2] →
      tr.ticker ∈ ["X"] ∧
        tr.trade_price = (fun _ => (1 : ℚ)) tr.ticker *
          pxW2 tr.date tr.ticker) ∧
    ((compute_pnl_with_attribution mmW2 [1, 2] ["X"] pxW2 0 0 0 0
        (fun _ => 1)).getD 1 rowZero).equity =
      (((compute_pnl_with_attribution mmW2 [1, 2] ["X"] pxW2 0 0 0 0
        (fun _ => 1)).take 2).map Row.total_pnl).sum := by
  have hc : ∀ tr ∈ mmW2.completed_trades, tr.date ∈ [1, 2] →
      tr.ticker ∈ ["X"] ∧ tr.ref_price = pxW2 tr.date tr.ticker := by
    intro tr htr
    simp only [mmW2, mmInit] at htr
    rw [List.mem_singleton] at htr
    subst htr
    intro hd
    norm_num [pxW2]
  have hh : ∀ tr ∈ mmW2.ETF_positions, tr.date ∈ [1, 2] →
      tr.ticker ∈ ["X"] ∧
        tr.trade_price = (fun _ => (1 : ℚ)) tr.ticker *
          pxW2 tr.date tr.ticker := by
    intro tr htr
    simp only [mmW2, mmInit] at htr
    rw [List.mem_singleton] at htr
    subst htr
    intro hd
    norm_num [pxW2]
  have h := equity_decomposition_and_cumulative mmW2 [1, 2] ["X"] pxW2
    0 0 0 0 (fun _ => 1) 1 (by norm_num)
  exact ⟨by norm_num, h.1, hc, hh, h.2 hc hh⟩

/-- Strict unit bound on the hyperbolic tangent. -/
theorem abs_tanh_lt_one (x : ℝ) : |Real.tanh x| < 1 := by
  rw [Real.tanh_eq_sinh_div_cosh, abs_div, abs_of_pos (Real.cosh_pos x),
    div_lt_one (Real.cosh_pos x), Real.abs_sinh, ← Real.cosh_abs]
  exact Real.sinh_lt_cosh |x|

/-- Counterexample to claim C7: at positive price, base spread and max
skew, but ideal inventory size 0 (a parameter choice the claim does not
exclude), the Python function raises ZeroDivisionError, modelled as a
none result, instead of returning a bid-offer pair. -/
theorem skewed_quote_zero_ideal_cex :
    (0 : ℝ) < 100 ∧ (0 : ℝ) < 1 / 50 ∧ (0 : ℝ) < 1 / 100 ∧
    skewed_quote 100 (1 / 50) 5 0 2 (1 / 100) = none ∧
    ¬ ∃ b o : ℝ, skewed_quote 100 (1 / 50) 5 0 2 (1 / 100) =
      some (b, o) ∧ b < o := by
  refine ⟨by norm_num, by norm_num, by norm_num, by simp [skewed_quote],
    ?_⟩
  rintro ⟨b, o, hbo, _⟩
  simp [skewed_quote] at hbo

/-- Amended C7: for every inventory, positive price, positive base spread
and positive max skew, and nonzero ideal inventory size (the function
divides by it), skewed_quote returns a pair with bid strictly below
offer, and the applied skew, the offset of the quote midpoint from the
current price, stays strictly inside price * max_skew in absolute
value. -/
theorem skewed_quote_bid_lt_offer_and_bounded_skew
    (current_price base_spread inventory inventory_ideal_size sensitivity
      max_skew : ℝ)
    (hp : 0 < current_price) (hs : 0 < base_spread) (hm : 0 < max_skew)
    (hi : inventory_ideal_size ≠ 0) :
    ∃ b o : ℝ, skewed_quote current_price base_spread inventory
        inventory_ideal_size sensitivity max_skew = some (b, o) ∧
      b < o ∧
      |(b + o) / 2 - current_price| < current_price * max_skew := by
  have hval : skewed_quote current_price base_spread inventory
      inventory_ideal_size sensitivity max_skew =
      some (current_price + current_price * max_skew *
          Real.tanh (sensitivity * inventory / inventory_ideal_size) -
          current_price * base_spread / 2,
        current_price + current_price * max_skew *
          Real.tanh (sensitivity * inventory / inventory_ideal_size) +
          current_price * base_spread / 2) := by
    simp [skewed_quote, hi]
  refine ⟨_, _, hval, ?_, ?_⟩
  · have h1 : 0 < current_price * base_spread := mul_pos hp hs
    linarith
  · have h2 : (current_price + current_price * max_skew *
        Real.tanh (sensitivity * inventory / inventory_ideal_size) -
        current_price * base_spread / 2 +
        (current_price + current_price * max_skew *
          Real.tanh (sensitivity * inventory / inventory_ideal_size) +
          current_price * base_spread / 2)) / 2 - current_price =
        current_price * max_skew *
          Real.tanh (sensitivity * inventory / inventory_ideal_size) := by
      ring
    rw [h2]
    calc |current_price * max_skew *
        Real.tanh (sensitivity * inventory / inventory_ideal_size)|
        = current_price * max_skew * |Real.tanh (sensitivity * inventory /
            inventory_ideal_size)| := by
          rw [abs_mul, abs_of_pos (mul_pos hp hm)]
      _ < current_price * max_skew * 1 :=
          mul_lt_mul_of_pos_left (abs_tanh_lt_one _) (mul_pos hp hm)
      _ = current_price * max_skew := mul_one _

/-- Witness for amended C7 at concrete parameters with an extreme
inventory. -/
theorem skewed_quote_bounded_witness :
    (0 : ℝ) < 100 ∧ (0 : ℝ) < 1 / 50 ∧ (0 : ℝ) < 1 / 100 ∧
    ((1 : ℝ) ≠ 0) ∧
    ∃ b o : ℝ, skewed_quote 100 (1 / 50) 1000000 1 2 (1 / 100) =
        some (b, o) ∧
      b < o ∧ |(b + o) / 2 - 100| < 100 * (1 / 100) :=
  ⟨by norm_num, by norm_num, by norm_num, by norm_num,
   skewed_quote_bid_lt_offer_and_bounded_skew 100 (1 / 50) 1000000 1 2
     (1 / 100) (by norm_num) (by norm_num) (by norm_num) (by norm_num)⟩

end AMM

